import Mathlib

/-!
Verification development for the contract pruning engine and the contract
access lock of the renterd repository.

The pruning engine is a shallow embedding of the function
`(*Bus).pruneContract` from `bus/pruning.go`.  External collaborators
(host RPC client, gouging checker, contract store) are modelled as a
deterministic environment of response functions; every outbound call the
code makes is recorded in a trace so that claims about which RPCs are
issued, in which order, with which arguments, can be stated and proved.

Machine integers (uint64, Currency) are modelled as `Nat`: none of the
verified properties depend on overflow behaviour, and the quantities
involved (sector counts, batch sizes, cost sums) stay far below 2^64 in
every concrete scenario considered.
-/

/-- rhpv4.SectorSize: the fixed size of one sector in bytes (2^22). -/
def SectorSize : Nat := 4194304

/-- rhpv4.MaxSectorBatchSize: the protocol maximum number of sectors per
batched roots fetch or free call (2^18). -/
def MaxSectorBatchSize : Nat := 262144

/-- rhpv4.Usage: the cost breakdown returned by a state-changing host RPC.
Field names follow the rhpv4 structure; Currency is modelled as Nat. -/
structure Usage where
  rpc : Nat
  storage : Nat
  egress : Nat
  ingress : Nat
  accountFunding : Nat
  riskedCollateral : Nat
deriving DecidableEq, Repr

/-- Usage.Add: pointwise addition of two usage breakdowns. -/
def Usage.Add (a b : Usage) : Usage :=
  { rpc := a.rpc + b.rpc
    storage := a.storage + b.storage
    egress := a.egress + b.egress
    ingress := a.ingress + b.ingress
    accountFunding := a.accountFunding + b.accountFunding
    riskedCollateral := a.riskedCollateral + b.riskedCollateral }

/-- Usage.RenterCost: the renter-side cost of a usage breakdown (all
categories except risked collateral). -/
def Usage.RenterCost (u : Usage) : Nat :=
  u.rpc + u.storage + u.egress + u.ingress + u.accountFunding

/-- The zero usage breakdown (Go zero value of rhpv4.Usage). -/
def Usage.zero : Usage :=
  { rpc := 0, storage := 0, egress := 0, ingress := 0
    accountFunding := 0, riskedCollateral := 0 }

/-- A contract revision as observed by the pruning engine: revision
number, filesize, and the two payout values read when recording
spending (MissedHostOutput().Value and RenterOutput.Value). -/
structure Revision where
  revisionNumber : Nat
  filesize : Nat
  missedHostValue : Nat
  validRenterValue : Nat
deriving DecidableEq, Repr

/-- Host price settings; the gouging checker judges these.  The concrete
price fields are opaque to the pruning logic, collapsed to one Nat. -/
structure Settings where
  prices : Nat
deriving DecidableEq, Repr

/-- api.ContractMetadata, restricted to the fields pruneContract reads:
contract id, host key and the last-known revision number. -/
structure ContractMetadata where
  id : Nat
  hostKey : Nat
  revisionNumber : Nat
deriving DecidableEq, Repr

/-- api.ContractSpending: the four spending categories. -/
structure ContractSpending where
  deletions : Nat
  fundAccount : Nat
  sectorRoots : Nat
  uploads : Nat
deriving DecidableEq, Repr

/-- api.ContractSpendingRecord: a spending record tagged with contract id,
revision number, size and payout values at recording time. -/
structure ContractSpendingRecord where
  spending : ContractSpending
  contractID : Nat
  revisionNumber : Nat
  size : Nat
  missedHostPayout : Nat
  validRenterPayout : Nat
deriving DecidableEq, Repr

/-- api.ContractPruneResponse: size after pruning, bytes freed, bytes
still prunable, and an optional error string. -/
structure ContractPruneResponse where
  contractSize : Nat
  pruned : Nat
  remaining : Nat
  error : String
deriving DecidableEq, Repr

/-- Result of a SectorRoots RPC: the requested page of roots, the new
revision, and the usage cost of the call.  Sector roots (Hash256) are
modelled as Nat. -/
structure SectorRootsResult where
  roots : List Nat
  revision : Revision
  usage : Usage
deriving DecidableEq, Repr

/-- Result of a FreeSectors RPC: the new revision and the usage cost. -/
structure FreeSectorsResult where
  revision : Revision
  usage : Usage
deriving DecidableEq, Repr

/-- Deterministic environment supplying the responses of all external
collaborators of pruneContract.  `sectorRoots` is indexed by the ordinal
of the call within the pass together with the requested offset and
length, so that environments can fail or misbehave on a chosen page. -/
structure HostEnv where
  latestRevision : Except String Revision
  settings : Except String Settings
  sectorRoots : Nat → Nat → Nat → Except String SectorRootsResult
  freeSectors : Nat → List Nat → Except String FreeSectorsResult
  prunableContractRoots : List Nat → Except String (List Nat)

instance exceptDecEq {e a : Type} [DecidableEq e] [DecidableEq a] :
    DecidableEq (Except e a)
  | Except.error x, Except.error y =>
      if h : x = y then isTrue (by rw [h])
      else isFalse (by intro hh; cases hh; exact h rfl)
  | Except.error _, Except.ok _ => isFalse (by intro hh; cases hh)
  | Except.ok _, Except.error _ => isFalse (by intro hh; cases hh)
  | Except.ok x, Except.ok y =>
      if h : x = y then isTrue (by rw [h])
      else isFalse (by intro hh; cases hh; exact h rfl)

/-- One outbound call made by pruneContract, with its arguments and, for
host RPCs, the response received. -/
inductive CallEvent where
  | latestRevisionCall : CallEvent
  | settingsCall : CallEvent
  | sectorRootsCall (revPassed offset length : Nat)
      (res : Except String SectorRootsResult) : CallEvent
  | freeSectorsCall (revPassed : Nat) (indices : List Nat)
      (res : Except String FreeSectorsResult) : CallEvent
  | prunableRootsCall (roots : List Nat)
      (res : Except String (List Nat)) : CallEvent
  | recordSpendingCall (rec : ContractSpendingRecord) : CallEvent
deriving DecidableEq, Repr

/-- The errors pruneContract can return, one constructor per fmt.Errorf
site in the Go source. -/
inductive PruneErr where
  | fetchRevisionFailed (e : String)
  | staleRevision (latest known : Nat)
  | fetchSettingsFailed (e : String)
  | hostGouging
  | fetchSectorsFailed (e : String)
  | fetchPrunableFailed (e : String)
  | freeSectorsFailed (e : String)
deriving DecidableEq, Repr

/-- Outcome of the sector enumeration loop.  `outOfFuel` marks an
execution whose iteration count exceeded the supplied fuel: the Go loop
has no fuel bound, so an outcome that is `outOfFuel` for every fuel
models divergence. -/
inductive FetchOutcome where
  | outOfFuel (trace : List CallEvent)
  | failed (e : String) (trace : List CallEvent)
  | done (roots : List Nat) (rev : Revision) (usage : Usage)
      (callIdx : Nat) (trace : List CallEvent)
deriving DecidableEq, Repr

/-- The sector enumeration loop of pruneContract (bus/pruning.go lines
43 to 68), with an explicit fuel parameter.  Each iteration computes the
page length exactly as the Go code does, issues the SectorRoots call,
threads the returned revision into the next iteration, advances the
offset by the number of roots actually returned, and accumulates the
usage cost. -/
def fetchRootsLoop (env : HostEnv) (numsectors : Nat) :
    Nat → Nat → Nat → Revision → List Nat → Usage → FetchOutcome
  | 0, offset, callIdx, rev, acc, usage =>
      if offset < numsectors then FetchOutcome.outOfFuel []
      else FetchOutcome.done acc rev usage callIdx []
  | fuel + 1, offset, callIdx, rev, acc, usage =>
      if offset < numsectors then
        let length :=
          if offset + MaxSectorBatchSize > numsectors then numsectors - offset
          else MaxSectorBatchSize
        match env.sectorRoots callIdx offset length with
        | Except.error e =>
            FetchOutcome.failed e
              [CallEvent.sectorRootsCall rev.revisionNumber offset length (Except.error e)]
        | Except.ok res =>
            let ev := CallEvent.sectorRootsCall rev.revisionNumber offset length (Except.ok res)
            match fetchRootsLoop env numsectors fuel (offset + res.roots.length)
                (callIdx + 1) res.revision (acc ++ res.roots) (usage.Add res.usage) with
            | FetchOutcome.outOfFuel tr => FetchOutcome.outOfFuel (ev :: tr)
            | FetchOutcome.failed e tr => FetchOutcome.failed e (ev :: tr)
            | FetchOutcome.done roots rev2 usage2 k tr =>
                FetchOutcome.done roots rev2 usage2 k (ev :: tr)
      else FetchOutcome.done acc rev usage callIdx []

/-- Outcome of a pruneContract run: a successful response, an error, or
fuel exhaustion of the enumeration loop; each carries the trace of
outbound calls made. -/
inductive PruneOutcome where
  | ok (resp : ContractPruneResponse) (trace : List CallEvent)
  | err (e : PruneErr) (trace : List CallEvent)
  | outOfFuel (trace : List CallEvent)
deriving DecidableEq, Repr

/-- The trace of outbound calls of an outcome. -/
def PruneOutcome.trace : PruneOutcome → List CallEvent
  | PruneOutcome.ok _ tr => tr
  | PruneOutcome.err _ tr => tr
  | PruneOutcome.outOfFuel tr => tr

/-- Whether an outcome is fuel exhaustion. -/
def PruneOutcome.isOutOfFuel : PruneOutcome → Bool
  | PruneOutcome.outOfFuel _ => true
  | _ => false

/-- The error of an outcome, when it is an error. -/
def PruneOutcome.errOf : PruneOutcome → Option PruneErr
  | PruneOutcome.err e _ => some e
  | _ => none

/-- The response of an outcome, when it is a success. -/
def PruneOutcome.okResp : PruneOutcome → Option ContractPruneResponse
  | PruneOutcome.ok resp _ => some resp
  | _ => none

/-- The in-flight exclusion of pruneContract (bus/pruning.go lines 76 to
84): keep only the candidate indices whose sector root is not in the
pending upload set.  The Go code reuses the backing array of `indices`
via `indices[:0]` and appends the kept entries in order, which is the
order-preserving filter below; indexing `sectorRoots[index]` is total in
the model via a default of 0 for an out-of-range index. -/
def excludePending (pendingUploads sectorRoots indices : List Nat) : List Nat :=
  indices.filter fun index =>
    !(pendingUploads.contains (sectorRoots.getD index 0))

/-- The batch cap of pruneContract (bus/pruning.go lines 86 to 90):
start from the protocol maximum and lower it to the candidate count when
that is smaller. -/
def pruneBatchSize (n : Nat) : Nat :=
  if MaxSectorBatchSize > n then n else MaxSectorBatchSize

/-- The tail of pruneContract after sector enumeration (bus/pruning.go
lines 70 to 128): resolve prunable indices through the store, exclude
indices whose root is in the pending upload set, cap the batch, issue
FreeSectors, record spending when the combined renter cost is nonzero,
and build the response. -/
def prunePhase2 (env : HostEnv) (cm : ContractMetadata) (pendingUploads : List Nat)
    (sectorRoots : List Nat) (rev : Revision) (rootsUsage : Usage)
    (trace : List CallEvent) : PruneOutcome :=
  match env.prunableContractRoots sectorRoots with
  | Except.error e =>
      PruneOutcome.err (PruneErr.fetchPrunableFailed e)
        (trace ++ [CallEvent.prunableRootsCall sectorRoots (Except.error e)])
  | Except.ok indices =>
      let trace1 := trace ++ [CallEvent.prunableRootsCall sectorRoots (Except.ok indices)]
      let toPrune := excludePending pendingUploads sectorRoots indices
      let totalToPrune := toPrune.length
      let batchSize := pruneBatchSize toPrune.length
      let capped := toPrune.take batchSize
      match env.freeSectors rev.revisionNumber capped with
      | Except.error e =>
          PruneOutcome.err (PruneErr.freeSectorsFailed e)
            (trace1 ++ [CallEvent.freeSectorsCall rev.revisionNumber capped (Except.error e)])
      | Except.ok res =>
          let trace2 := trace1 ++
            [CallEvent.freeSectorsCall rev.revisionNumber capped (Except.ok res)]
          let deleteUsage := res.usage
          let rev2 := res.revision
          let trace3 :=
            if (rootsUsage.Add deleteUsage).RenterCost = 0 then trace2
            else trace2 ++ [CallEvent.recordSpendingCall
              { spending :=
                  { deletions := deleteUsage.RenterCost
                    fundAccount := 0
                    sectorRoots := rootsUsage.RenterCost
                    uploads := 0 }
                contractID := cm.id
                revisionNumber := rev2.revisionNumber
                size := rev2.filesize
                missedHostPayout := rev2.missedHostValue
                validRenterPayout := rev2.validRenterValue }]
          PruneOutcome.ok
            { contractSize := rev2.filesize
              pruned := capped.length * SectorSize
              remaining := (totalToPrune - capped.length) * SectorSize
              error := "" }
            trace3

/-- Shallow embedding of (*Bus).pruneContract (bus/pruning.go lines 16
to 129): fetch the latest revision, fail on regression of the revision
number, fetch settings, fail on gouging, enumerate all sector roots,
then resolve, filter, cap, free and record through prunePhase2. -/
def pruneContract (env : HostEnv) (gc : Settings → Bool) (cm : ContractMetadata)
    (pendingUploads : List Nat) (fuel : Nat) : PruneOutcome :=
  match env.latestRevision with
  | Except.error e =>
      PruneOutcome.err (PruneErr.fetchRevisionFailed e) [CallEvent.latestRevisionCall]
  | Except.ok rev =>
      if rev.revisionNumber < cm.revisionNumber then
        PruneOutcome.err (PruneErr.staleRevision rev.revisionNumber cm.revisionNumber)
          [CallEvent.latestRevisionCall]
      else
        match env.settings with
        | Except.error e =>
            PruneOutcome.err (PruneErr.fetchSettingsFailed e)
              [CallEvent.latestRevisionCall, CallEvent.settingsCall]
        | Except.ok settings =>
            if gc settings then
              PruneOutcome.err PruneErr.hostGouging
                [CallEvent.latestRevisionCall, CallEvent.settingsCall]
            else
              match fetchRootsLoop env (rev.filesize / SectorSize) fuel 0 0 rev [] Usage.zero with
              | FetchOutcome.outOfFuel tr =>
                  PruneOutcome.outOfFuel
                    ([CallEvent.latestRevisionCall, CallEvent.settingsCall] ++ tr)
              | FetchOutcome.failed e tr =>
                  PruneOutcome.err (PruneErr.fetchSectorsFailed e)
                    ([CallEvent.latestRevisionCall, CallEvent.settingsCall] ++ tr)
              | FetchOutcome.done roots rev1 usage1 _ tr =>
                  prunePhase2 env cm pendingUploads roots rev1 usage1
                    ([CallEvent.latestRevisionCall, CallEvent.settingsCall] ++ tr)

/-- The spending records persisted during a trace, in order. -/
def recordedSpendings : List CallEvent → List ContractSpendingRecord
  | [] => []
  | CallEvent.recordSpendingCall rec :: rest => rec :: recordedSpendings rest
  | _ :: rest => recordedSpendings rest

/-- The summed renter cost of every successful SectorRoots response in a
trace. -/
def sumPageUsages : List CallEvent → Nat
  | [] => 0
  | CallEvent.sectorRootsCall _ _ _ (Except.ok res) :: rest =>
      res.usage.RenterCost + sumPageUsages rest
  | _ :: rest => sumPageUsages rest

/-- The total number of roots returned by the successful SectorRoots
responses in a trace. -/
def sumPageRoots : List CallEvent → Nat
  | [] => 0
  | CallEvent.sectorRootsCall _ _ _ (Except.ok res) :: rest =>
      res.roots.length + sumPageRoots rest
  | _ :: rest => sumPageRoots rest

/-- Whether a sequence of enumeration events is a well-formed page chain
for `numsectors` sectors: every event is a successful SectorRoots call,
the first call passes revision `r` and offset `off`, every call requests
exactly the minimum of the protocol batch maximum and the sectors still
remaining, and every later call passes the revision returned by the call
immediately before it and the offset advanced by the roots received. -/
def pagesOk (numsectors : Nat) : Nat → Nat → List CallEvent → Bool
  | _, _, [] => true
  | r, off, CallEvent.sectorRootsCall revPassed offset length (Except.ok res) :: rest =>
      revPassed == r && offset == off
        && length == min MaxSectorBatchSize (numsectors - off)
        && pagesOk numsectors res.revision.revisionNumber (off + res.roots.length) rest
  | _, _, _ => false

/-- The number of paid RPC calls (SectorRoots or FreeSectors) in a
trace. -/
def countPaidCalls : List CallEvent → Nat
  | [] => 0
  | CallEvent.sectorRootsCall _ _ _ _ :: rest => 1 + countPaidCalls rest
  | CallEvent.freeSectorsCall _ _ _ :: rest => 1 + countPaidCalls rest
  | _ :: rest => countPaidCalls rest

/-- Modelled from the spec: one lease of the Contract Lock (spec section
4.1 and the Lock Lease data model).  The lock implementation itself is
absent from the provided sources (only the acquire, keepalive and
release API request types appear in the api package), so the lease state
machine is built from the specified contract: a lease carries an opaque
token and an expiry instant, and is outstanding while it is neither
released nor past its expiry. -/
structure Lease where
  token : Nat
  expiry : Nat
  released : Bool
deriving DecidableEq, Repr

/-- Whether a lease is outstanding at instant `now`: not released and not
yet expired. -/
def Lease.outstanding (now : Nat) (l : Lease) : Bool :=
  !l.released && decide (now < l.expiry)

/-- Modelled from the spec: the state of the Contract Lock for one
contract identifier, on a discrete logical clock.  `leases` holds every
lease ever granted, so the exclusion invariant can be stated over all of
them. -/
structure LockState where
  time : Nat
  leases : List Lease
deriving DecidableEq, Repr

/-- The number of leases outstanding at the current instant. -/
def LockState.outstandingCount (s : LockState) : Nat :=
  s.leases.countP (Lease.outstanding s.time)

/-- Modelled from the spec: the events observable on the lock for one
contract identifier.  `tick` advances the clock, which realises passive
expiry: a lease whose expiry has elapsed stops being outstanding with no
action by any caller. -/
inductive LockEvent where
  | acquire (duration : Nat)
  | keepalive (token extension : Nat)
  | release (token : Nat)
  | tick (dt : Nat)
deriving DecidableEq, Repr

/-- Modelled from the spec: Acquire grants a fresh lease only when no
lease is outstanding (an expired or released incumbent is reclaimed
immediately); otherwise the caller keeps waiting and no lease is
granted by this event.  The fresh token is the number of grants so
far, which is unique across the history. -/
def lockAcquire (s : LockState) (duration : Nat) : LockState :=
  if s.leases.all fun l => !(Lease.outstanding s.time l) then
    { s with leases :=
        s.leases ++ [{ token := s.leases.length, expiry := s.time + duration, released := false }] }
  else s

/-- Modelled from the spec: Keepalive extends the expiry of a currently
held, non-expired lease with a matching token; on an unknown, released
or expired token it fails with NotHeld and changes nothing. -/
def lockKeepalive (s : LockState) (token extension : Nat) : LockState :=
  { s with leases := s.leases.map fun l =>
      if l.token == token && Lease.outstanding s.time l then
        { l with expiry := l.expiry + extension }
      else l }

/-- Modelled from the spec: Release marks the lease with a matching,
not-yet-released token as released; a second release of the same token,
or a release of an unknown token, fails with NotHeld and changes
nothing. -/
def lockRelease (s : LockState) (token : Nat) : LockState :=
  { s with leases := s.leases.map fun l =>
      if l.token == token && !l.released then { l with released := true } else l }

/-- One step of the lock state machine. -/
def lockStep (s : LockState) : LockEvent → LockState
  | LockEvent.acquire duration => lockAcquire s duration
  | LockEvent.keepalive token extension => lockKeepalive s token extension
  | LockEvent.release token => lockRelease s token
  | LockEvent.tick dt => { s with time := s.time + dt }

/-- The lock state reached from the empty initial state by a sequence of
events. -/
def lockRun (events : List LockEvent) : LockState :=
  events.foldl lockStep { time := 0, leases := [] }

/-- A revision with two sectors of data, used as the latest revision of
the concrete test environments. -/
def revTwoSectors : Revision :=
  { revisionNumber := 5, filesize := 2 * SectorSize
    missedHostValue := 11, validRenterValue := 13 }

/-- Contract metadata whose last-known revision number 4 is below the
fetched revision number 5 of `revTwoSectors`. -/
def cmEx : ContractMetadata := { id := 1, hostKey := 2, revisionNumber := 4 }

/-- A gouging checker that never flags. -/
def gcNever : Settings → Bool := fun _ => false

/-- A well-behaved host: every SectorRoots call returns exactly the
requested number of roots (root j of the page at offset off is off + j)
with renter cost 2, and FreeSectors succeeds with renter cost 5 and a
revision shrunk by the freed sectors.  The store reports indices 0 and 1
prunable. -/
def goodEnv : HostEnv :=
  { latestRevision := Except.ok revTwoSectors
    settings := Except.ok { prices := 3 }
    sectorRoots := fun i off len => Except.ok
      { roots := (List.range len).map fun j => off + j
        revision := { revisionNumber := 6 + i, filesize := 2 * SectorSize
                      missedHostValue := 11, validRenterValue := 13 }
        usage := { rpc := 2, storage := 0, egress := 0, ingress := 0
                   accountFunding := 0, riskedCollateral := 0 } }
    freeSectors := fun _ idxs => Except.ok
      { revision := { revisionNumber := 100
                      filesize := 2 * SectorSize - idxs.length * SectorSize
                      missedHostValue := 17, validRenterValue := 19 }
        usage := { rpc := 5, storage := 0, egress := 0, ingress := 0
                   accountFunding := 0, riskedCollateral := 0 } }
    prunableContractRoots := fun _ => Except.ok [0, 1] }

/-- A host that answers every SectorRoots call successfully but with an
empty page: the enumeration loop makes no progress on it. -/
def emptyRootsEnv : HostEnv :=
  { goodEnv with
    sectorRoots := fun i _ _ => Except.ok
      { roots := []
        revision := { revisionNumber := 6 + i, filesize := 2 * SectorSize
                      missedHostValue := 11, validRenterValue := 13 }
        usage := Usage.zero } }

/-- A host whose first SectorRoots page succeeds with one root and
renter cost 7, and whose second page fails: a paid RPC returns before
the pass fails. -/
def midFailEnv : HostEnv :=
  { goodEnv with
    sectorRoots := fun i off _ =>
      if i == 0 then Except.ok
        { roots := [off + 30]
          revision := { revisionNumber := 6, filesize := 2 * SectorSize
                        missedHostValue := 11, validRenterValue := 13 }
          usage := { rpc := 7, storage := 0, egress := 0, ingress := 0
                     accountFunding := 0, riskedCollateral := 0 } }
      else Except.error "boom" }

/-- A host identical to `goodEnv` except that the FreeSectors call
fails, as it would when the deletion was only partially applied before
the session broke. -/
def freeFailEnv : HostEnv :=
  { goodEnv with
    freeSectors := fun _ _ => Except.error "partial failure" }

/-- The trace of a fetch-loop outcome. -/
def FetchOutcome.trace : FetchOutcome → List CallEvent
  | FetchOutcome.outOfFuel tr => tr
  | FetchOutcome.failed _ tr => tr
  | FetchOutcome.done _ _ _ _ tr => tr

/-- Whether a fetch-loop outcome is fuel exhaustion. -/
def FetchOutcome.isOutOfFuel : FetchOutcome → Bool
  | FetchOutcome.outOfFuel _ => true
  | _ => false

/-- An environment whose fetched revision number 3 is strictly below the
last-known revision number 4 of `cmEx`. -/
def staleEnv : HostEnv :=
  { goodEnv with
    latestRevision := Except.ok
      { revisionNumber := 3, filesize := 2 * SectorSize
        missedHostValue := 11, validRenterValue := 13 } }

/-- A gouging checker that always flags. -/
def gcAlways : Settings → Bool := fun _ => true

theorem countP_map_eq_of_pointwise {α : Type} (p : α → Bool) (f : α → α)
    (h : ∀ x, p (f x) = p x) :
    ∀ l : List α, (l.map f).countP p = l.countP p := by
  intro l
  induction l with
  | nil => rfl
  | cons a t ih => simp [List.countP_cons, ih, h a]

theorem countP_map_le_of_pointwise {α : Type} (p : α → Bool) (f : α → α)
    (h : ∀ x, p (f x) = true → p x = true) :
    ∀ l : List α, (l.map f).countP p ≤ l.countP p := by
  intro l
  induction l with
  | nil => exact Nat.le_refl 0
  | cons a t ih =>
    simp only [List.map_cons, List.countP_cons]
    have key : (if p (f a) = true then (1:Nat) else 0) ≤ if p a = true then 1 else 0 := by
      by_cases hfa : p (f a) = true
      · simp [hfa, h a hfa]
      · simp [hfa]
    exact Nat.add_le_add ih key

theorem countP_le_of_imp {α : Type} (p q : α → Bool)
    (h : ∀ x, p x = true → q x = true) :
    ∀ l : List α, l.countP p ≤ l.countP q := by
  intro l
  induction l with
  | nil => exact Nat.le_refl 0
  | cons a t ih =>
    simp only [List.countP_cons]
    have key : (if p a = true then (1:Nat) else 0) ≤ if q a = true then 1 else 0 := by
      by_cases hpa : p a = true
      · simp [hpa, h a hpa]
      · simp [hpa]
    exact Nat.add_le_add ih key

/-- One lock event preserves the bound of at most one outstanding
lease. -/
theorem lockStep_preserves (s : LockState) (e : LockEvent)
    (h : s.outstandingCount ≤ 1) : (lockStep s e).outstandingCount ≤ 1 := by
  cases e with
  | acquire duration =>
    simp only [lockStep, lockAcquire]
    split
    case isTrue hall =>
      simp only [LockState.outstandingCount, List.countP_append]
      have hzero : s.leases.countP (Lease.outstanding s.time) = 0 := by
        rw [List.countP_eq_zero]
        intro l hl
        have := (List.all_eq_true.mp hall) l hl
        simp only [Bool.not_eq_true'] at this
        simp [this]
      rw [hzero]
      have hone : List.countP (Lease.outstanding s.time)
          [Lease.mk s.leases.length (s.time + duration) false] ≤ 1 := by
        have := List.countP_le_length (l :=
          [Lease.mk s.leases.length (s.time + duration) false])
          (Lease.outstanding s.time)
        simpa using this
      omega
    case isFalse => exact h
  | keepalive token extension =>
    simp only [lockStep, lockKeepalive, LockState.outstandingCount] at h ⊢
    rw [countP_map_eq_of_pointwise]
    · exact h
    · intro x
      by_cases hc : (x.token == token && Lease.outstanding s.time x) = true
      · simp only [hc, if_pos]
        have hx : Lease.outstanding s.time x = true := by
          have := hc
          simp only [Bool.and_eq_true] at this
          exact this.2
        simp only [Lease.outstanding, Bool.and_eq_true, Bool.not_eq_true',
          decide_eq_true_eq] at hx
        have h2 : s.time < x.expiry + extension :=
          Nat.lt_of_lt_of_le hx.2 (Nat.le_add_right _ _)
        simp [Lease.outstanding, hx.1, hx.2, h2]
      · simp [hc]
  | release token =>
    simp only [lockStep, lockRelease, LockState.outstandingCount] at h ⊢
    refine Nat.le_trans (countP_map_le_of_pointwise _ _ ?_ _) h
    intro x hx
    by_cases hc : (x.token == token && !x.released) = true
    · simp only [hc, if_pos] at hx
      simp [Lease.outstanding] at hx
    · simp only [hc] at hx
      simpa using hx
  | tick dt =>
    simp only [lockStep, LockState.outstandingCount] at h ⊢
    refine Nat.le_trans (countP_le_of_imp _ _ ?_ _) h
    intro x hx
    simp only [Lease.outstanding, Bool.and_eq_true, Bool.not_eq_true',
      decide_eq_true_eq] at hx ⊢
    constructor
    · exact hx.1
    · exact Nat.lt_of_le_of_lt (Nat.le_add_right _ _) hx.2

theorem lockRun_from (events : List LockEvent) :
    ∀ s : LockState, s.outstandingCount ≤ 1 →
      (events.foldl lockStep s).outstandingCount ≤ 1 := by
  induction events with
  | nil => intro s h; exact h
  | cons e t ih =>
    intro s h
    exact ih (lockStep s e) (lockStep_preserves s e h)

/-- C1: for every sequence of Acquire, Keepalive, Release and
passive-expiry events on one contract identifier, at most one
non-expired, non-released lease is outstanding at any instant. -/
theorem claim_C1 (events : List LockEvent) :
    (lockRun events).outstandingCount ≤ 1 := by
  apply lockRun_from
  simp [LockState.outstandingCount]

theorem Usage.RenterCost_Add (a b : Usage) :
    (a.Add b).RenterCost = a.RenterCost + b.RenterCost := by
  simp [Usage.Add, Usage.RenterCost]
  omega

theorem recordedSpendings_append (a b : List CallEvent) :
    recordedSpendings (a ++ b) = recordedSpendings a ++ recordedSpendings b := by
  induction a with
  | nil => rfl
  | cons e t ih => cases e <;> simp [recordedSpendings, ih]

theorem batchLength_eq_min (offset ns : Nat) :
    (if offset + MaxSectorBatchSize > ns then ns - offset else MaxSectorBatchSize)
      = min MaxSectorBatchSize (ns - offset) := by
  split <;> omega

/-- Invariant of the enumeration loop on completion: the trace is a
well-formed page chain starting from the initial revision and offset,
the final usage is the initial usage plus the summed page costs, and the
final root list extends the accumulator by exactly the roots received. -/
theorem fetchRootsLoop_done (env : HostEnv) (ns : Nat) :
    ∀ fuel offset callIdx rev acc usage roots rev2 usage2 k tr,
    fetchRootsLoop env ns fuel offset callIdx rev acc usage
      = FetchOutcome.done roots rev2 usage2 k tr →
    pagesOk ns rev.revisionNumber offset tr = true
      ∧ usage2.RenterCost = usage.RenterCost + sumPageUsages tr
      ∧ roots.length = acc.length + sumPageRoots tr := by
  intro fuel
  induction fuel with
  | zero =>
    intro offset callIdx rev acc usage roots rev2 usage2 k tr h
    simp only [fetchRootsLoop] at h
    split at h
    · cases h
    · cases h
      simp [pagesOk, sumPageUsages, sumPageRoots]
  | succ fuel ih =>
    intro offset callIdx rev acc usage roots rev2 usage2 k tr h
    simp only [fetchRootsLoop] at h
    split at h
    case isFalse hge =>
      cases h
      simp [pagesOk, sumPageUsages, sumPageRoots]
    case isTrue hlt =>
      split at h
      next e hsr => cases h
      next res hsr =>
        split at h
        next tr1 hrec => cases h
        next e tr1 hrec => cases h
        next roots1 rev1 usage1 k1 hrec =>
          cases h
          obtain ⟨hpages, husage, hroots⟩ := ih _ _ _ _ _ _ _ _ _ _ hrec
          refine ⟨?_, ?_, ?_⟩
          · simp only [pagesOk, batchLength_eq_min]
            simp [hpages]
          · simp only [sumPageUsages]
            rw [husage, Usage.RenterCost_Add]
            omega
          · simp only [sumPageRoots]
            rw [hroots]
            simp
            omega

/-- Against a host that answers every page request with exactly the
requested number of roots, the loop completes within `numsectors`
iterations and collects exactly the missing `numsectors - offset`
roots. -/
theorem fetchRootsLoop_exact (env : HostEnv) (ns : Nat)
    (hexact : ∀ i off len, 0 < len →
      ∃ res, env.sectorRoots i off len = Except.ok res ∧ res.roots.length = len) :
    ∀ fuel offset callIdx rev acc usage, ns - offset ≤ fuel →
    ∃ roots rev2 usage2 k tr,
      fetchRootsLoop env ns fuel offset callIdx rev acc usage
        = FetchOutcome.done roots rev2 usage2 k tr
      ∧ roots.length = acc.length + (ns - offset) := by
  intro fuel
  induction fuel with
  | zero =>
    intro offset callIdx rev acc usage hle
    have hge : ¬ offset < ns := by omega
    refine ⟨acc, rev, usage, callIdx, [], ?_, ?_⟩
    · simp [fetchRootsLoop, hge]
    · omega
  | succ fuel ih =>
    intro offset callIdx rev acc usage hle
    by_cases hlt : offset < ns
    · have hmax : 0 < MaxSectorBatchSize := by norm_num [MaxSectorBatchSize]
      have hlen : 0 < (if offset + MaxSectorBatchSize > ns then ns - offset
          else MaxSectorBatchSize) := by split <;> omega
      have hlenle : (if offset + MaxSectorBatchSize > ns then ns - offset
          else MaxSectorBatchSize) ≤ ns - offset := by split <;> omega
      obtain ⟨res, hsr, hreslen⟩ := hexact callIdx offset _ hlen
      obtain ⟨roots1, rev1, usage1, k1, tr1, hrec, hlen1⟩ :=
        ih (offset + res.roots.length) (callIdx + 1) res.revision
          (acc ++ res.roots) (usage.Add res.usage) (by omega)
      refine ⟨roots1, rev1, usage1, k1,
        CallEvent.sectorRootsCall rev.revisionNumber offset
          (if offset + MaxSectorBatchSize > ns then ns - offset
            else MaxSectorBatchSize) (Except.ok res) :: tr1, ?_, ?_⟩
      · simp only [fetchRootsLoop, if_pos hlt, hsr, hrec]
      · simp only [List.length_append] at hlen1
        omega
    · refine ⟨acc, rev, usage, callIdx, [], ?_, ?_⟩
      · simp [fetchRootsLoop, hlt]
      · omega

/-- Against a host whose every successful page response for a nonzero
request carries at least one root, the loop never exhausts a fuel budget
of `numsectors - offset` iterations: it completes or fails, but does not
diverge. -/
theorem fetchRootsLoop_progress (env : HostEnv) (ns : Nat)
    (hprog : ∀ i off len res, 0 < len →
      env.sectorRoots i off len = Except.ok res → 0 < res.roots.length) :
    ∀ fuel offset callIdx rev acc usage, ns - offset ≤ fuel →
    (fetchRootsLoop env ns fuel offset callIdx rev acc usage).isOutOfFuel = false := by
  intro fuel
  induction fuel with
  | zero =>
    intro offset callIdx rev acc usage hle
    have hge : ¬ offset < ns := by omega
    simp [fetchRootsLoop, hge, FetchOutcome.isOutOfFuel]
  | succ fuel ih =>
    intro offset callIdx rev acc usage hle
    by_cases hlt : offset < ns
    · have hmax : 0 < MaxSectorBatchSize := by norm_num [MaxSectorBatchSize]
      have hlen : 0 < (if offset + MaxSectorBatchSize > ns then ns - offset
          else MaxSectorBatchSize) := by split <;> omega
      cases hsr : env.sectorRoots callIdx offset
          (if offset + MaxSectorBatchSize > ns then ns - offset
            else MaxSectorBatchSize) with
      | error e =>
        simp [fetchRootsLoop, if_pos hlt, hsr, FetchOutcome.isOutOfFuel]
      | ok res =>
        have hroots : 0 < res.roots.length := hprog _ _ _ _ hlen hsr
        have hrecof := ih (offset + res.roots.length) (callIdx + 1) res.revision
          (acc ++ res.roots) (usage.Add res.usage) (by omega)
        cases hrec : fetchRootsLoop env ns fuel (offset + res.roots.length)
            (callIdx + 1) res.revision (acc ++ res.roots) (usage.Add res.usage) with
        | outOfFuel tr1 =>
          rw [hrec] at hrecof
          simp [FetchOutcome.isOutOfFuel] at hrecof
        | failed e tr1 =>
          simp [fetchRootsLoop, if_pos hlt, hsr, hrec, FetchOutcome.isOutOfFuel]
        | done roots1 rev1 usage1 k1 tr1 =>
          simp [fetchRootsLoop, if_pos hlt, hsr, hrec, FetchOutcome.isOutOfFuel]
    · simp [fetchRootsLoop, hlt, FetchOutcome.isOutOfFuel]

/-- Against the host that always answers with an empty page, the loop
exhausts every fuel budget: the unbounded Go loop diverges. -/
theorem fetchRootsLoop_empty (ns : Nat) :
    ∀ fuel offset callIdx rev acc usage, offset < ns →
    (fetchRootsLoop emptyRootsEnv ns fuel offset callIdx rev acc usage).isOutOfFuel
      = true := by
  intro fuel
  induction fuel with
  | zero =>
    intro offset callIdx rev acc usage hlt
    simp [fetchRootsLoop, hlt, FetchOutcome.isOutOfFuel]
  | succ fuel ih =>
    intro offset callIdx rev acc usage hlt
    have hsr : emptyRootsEnv.sectorRoots callIdx offset
        (if offset + MaxSectorBatchSize > ns then ns - offset
          else MaxSectorBatchSize)
        = Except.ok
          { roots := []
            revision := { revisionNumber := 6 + callIdx, filesize := 2 * SectorSize
                          missedHostValue := 11, validRenterValue := 13 }
            usage := Usage.zero } := rfl
    have hrecof := ih offset (callIdx + 1)
      { revisionNumber := 6 + callIdx, filesize := 2 * SectorSize
        missedHostValue := 11, validRenterValue := 13 }
      (acc ++ []) (usage.Add Usage.zero) hlt
    cases hrec : fetchRootsLoop emptyRootsEnv ns fuel offset (callIdx + 1)
        { revisionNumber := 6 + callIdx, filesize := 2 * SectorSize
          missedHostValue := 11, validRenterValue := 13 }
        (acc ++ []) (usage.Add Usage.zero) with
    | outOfFuel tr1 =>
      simp only [fetchRootsLoop, if_pos hlt, hsr]
      simp only [List.length_nil, Nat.add_zero]
      rw [hrec]
      simp [FetchOutcome.isOutOfFuel]
    | failed e tr1 =>
      rw [hrec] at hrecof
      simp [FetchOutcome.isOutOfFuel] at hrecof
    | done roots1 rev1 usage1 k1 tr1 =>
      rw [hrec] at hrecof
      simp [FetchOutcome.isOutOfFuel] at hrecof

/-- The enumeration loop records no spending: its trace consists of
SectorRoots call events only. -/
theorem fetchRootsLoop_no_records (env : HostEnv) (ns : Nat) :
    ∀ fuel offset callIdx rev acc usage,
    recordedSpendings (fetchRootsLoop env ns fuel offset callIdx rev acc usage).trace
      = [] := by
  intro fuel
  induction fuel with
  | zero =>
    intro offset callIdx rev acc usage
    by_cases hlt : offset < ns <;>
      simp [fetchRootsLoop, hlt, FetchOutcome.trace, recordedSpendings]
  | succ fuel ih =>
    intro offset callIdx rev acc usage
    by_cases hlt : offset < ns
    · cases hsr : env.sectorRoots callIdx offset
          (if offset + MaxSectorBatchSize > ns then ns - offset
            else MaxSectorBatchSize) with
      | error e =>
        simp [fetchRootsLoop, if_pos hlt, hsr, FetchOutcome.trace, recordedSpendings]
      | ok res =>
        have hrecof := ih (offset + res.roots.length) (callIdx + 1) res.revision
          (acc ++ res.roots) (usage.Add res.usage)
        cases hrec : fetchRootsLoop env ns fuel (offset + res.roots.length)
            (callIdx + 1) res.revision (acc ++ res.roots) (usage.Add res.usage) with
        | outOfFuel tr1 =>
          rw [hrec] at hrecof
          simp only [fetchRootsLoop, if_pos hlt, hsr, hrec]
          simp only [FetchOutcome.trace] at hrecof ⊢
          simp [recordedSpendings, hrecof]
        | failed e tr1 =>
          rw [hrec] at hrecof
          simp only [fetchRootsLoop, if_pos hlt, hsr, hrec]
          simp only [FetchOutcome.trace] at hrecof ⊢
          simp [recordedSpendings, hrecof]
        | done roots1 rev1 usage1 k1 tr1 =>
          rw [hrec] at hrecof
          simp only [fetchRootsLoop, if_pos hlt, hsr, hrec]
          simp only [FetchOutcome.trace] at hrecof ⊢
          simp [recordedSpendings, hrecof]
    · simp [fetchRootsLoop, hlt, FetchOutcome.trace, recordedSpendings]

theorem prunePhase2_no_stale (env : HostEnv) (cm : ContractMetadata)
    (pend roots : List Nat) (rev : Revision) (ru : Usage) (tr0 : List CallEvent) :
    ∀ a b tr, prunePhase2 env cm pend roots rev ru tr0
      ≠ PruneOutcome.err (PruneErr.staleRevision a b) tr := by
  intro a b tr h
  simp only [prunePhase2] at h
  split at h
  · simp at h
  · split at h
    · simp at h
    · simp at h

theorem prunePhase2_not_outOfFuel (env : HostEnv) (cm : ContractMetadata)
    (pend roots : List Nat) (rev : Revision) (ru : Usage) (tr0 : List CallEvent) :
    (prunePhase2 env cm pend roots rev ru tr0).isOutOfFuel = false := by
  simp only [prunePhase2]
  split
  · simp [PruneOutcome.isOutOfFuel]
  · split
    · simp [PruneOutcome.isOutOfFuel]
    · split <;> simp [PruneOutcome.isOutOfFuel]

theorem prunePhase2_err_records (env : HostEnv) (cm : ContractMetadata)
    (pend roots : List Nat) (rev : Revision) (ru : Usage) (tr0 : List CallEvent)
    (e : PruneErr) (tr : List CallEvent)
    (h : prunePhase2 env cm pend roots rev ru tr0 = PruneOutcome.err e tr) :
    recordedSpendings tr = recordedSpendings tr0 := by
  simp only [prunePhase2] at h
  split at h
  · simp only [PruneOutcome.err.injEq] at h
    obtain ⟨-, htr⟩ := h
    subst htr
    simp [recordedSpendings_append, recordedSpendings]
  · split at h
    · simp only [PruneOutcome.err.injEq] at h
      obtain ⟨-, htr⟩ := h
      subst htr
      simp [recordedSpendings_append, recordedSpendings]
    · simp at h

theorem prunePhase2_ok_error (env : HostEnv) (cm : ContractMetadata)
    (pend roots : List Nat) (rev : Revision) (ru : Usage) (tr0 : List CallEvent)
    (resp : ContractPruneResponse) (tr : List CallEvent)
    (h : prunePhase2 env cm pend roots rev ru tr0 = PruneOutcome.ok resp tr) :
    resp.error = "" := by
  simp only [prunePhase2] at h
  split at h
  · simp at h
  · split at h
    · simp at h
    · simp only [PruneOutcome.ok.injEq] at h
      obtain ⟨hresp, -⟩ := h
      subst hresp
      rfl

/-- Full value of prunePhase2 when the store query and the FreeSectors
call both succeed. -/
theorem prunePhase2_ok_eq (env : HostEnv) (cm : ContractMetadata)
    (pend roots : List Nat) (rev : Revision) (ru : Usage) (tr0 : List CallEvent)
    (indices : List Nat) (fres : FreeSectorsResult)
    (hidx : env.prunableContractRoots roots = Except.ok indices)
    (hfree : env.freeSectors rev.revisionNumber
        ((excludePending pend roots indices).take
          (pruneBatchSize (excludePending pend roots indices).length))
      = Except.ok fres) :
    prunePhase2 env cm pend roots rev ru tr0 = PruneOutcome.ok
      { contractSize := fres.revision.filesize
        pruned := ((excludePending pend roots indices).take
          (pruneBatchSize (excludePending pend roots indices).length)).length * SectorSize
        remaining := ((excludePending pend roots indices).length
          - ((excludePending pend roots indices).take
            (pruneBatchSize (excludePending pend roots indices).length)).length)
          * SectorSize
        error := "" }
      ((tr0 ++ [CallEvent.prunableRootsCall roots (Except.ok indices)]
        ++ [CallEvent.freeSectorsCall rev.revisionNumber
            ((excludePending pend roots indices).take
              (pruneBatchSize (excludePending pend roots indices).length))
            (Except.ok fres)])
        ++ (if (ru.Add fres.usage).RenterCost = 0 then []
            else [CallEvent.recordSpendingCall
              { spending := { deletions := fres.usage.RenterCost, fundAccount := 0
                              sectorRoots := ru.RenterCost, uploads := 0 }
                contractID := cm.id
                revisionNumber := fres.revision.revisionNumber
                size := fres.revision.filesize
                missedHostPayout := fres.revision.missedHostValue
                validRenterPayout := fres.revision.validRenterValue }])) := by
  simp only [prunePhase2, hidx, hfree]
  split <;> simp

/-- Once the pre-checks pass and the enumeration loop completes,
pruneContract is exactly prunePhase2 on the enumeration results. -/
theorem pruneContract_toPhase2 (env : HostEnv) (gc : Settings → Bool)
    (cm : ContractMetadata) (pend : List Nat) (fuel : Nat) (rev : Revision)
    (st : Settings) (roots : List Nat) (rev1 : Revision) (usage1 : Usage)
    (k : Nat) (trL : List CallEvent)
    (hrev : env.latestRevision = Except.ok rev)
    (hfresh : ¬ rev.revisionNumber < cm.revisionNumber)
    (hset : env.settings = Except.ok st)
    (hgc : gc st = false)
    (hloop : fetchRootsLoop env (rev.filesize / SectorSize) fuel 0 0 rev [] Usage.zero
      = FetchOutcome.done roots rev1 usage1 k trL) :
    pruneContract env gc cm pend fuel
      = prunePhase2 env cm pend roots rev1 usage1
          ([CallEvent.latestRevisionCall, CallEvent.settingsCall] ++ trL) := by
  simp only [pruneContract, hrev, hset, hgc, hloop, if_neg hfresh]
  simp

/-- C2: when the fetched revision number is strictly below the last
known one, pruneContract fails with the stale-revision error having
issued only the initial revision fetch; and that error branch is taken
only in that situation. -/
theorem claim_C2 (env : HostEnv) (gc : Settings → Bool) (cm : ContractMetadata)
    (pend : List Nat) (fuel : Nat) (rev : Revision)
    (hrev : env.latestRevision = Except.ok rev) :
    (rev.revisionNumber < cm.revisionNumber →
      pruneContract env gc cm pend fuel
        = PruneOutcome.err
            (PruneErr.staleRevision rev.revisionNumber cm.revisionNumber)
            [CallEvent.latestRevisionCall])
    ∧ (∀ a b tr, pruneContract env gc cm pend fuel
          = PruneOutcome.err (PruneErr.staleRevision a b) tr →
        rev.revisionNumber < cm.revisionNumber) := by
  constructor
  · intro hstale
    simp only [pruneContract, hrev, if_pos hstale]
  · intro a b tr h
    by_cases hstale : rev.revisionNumber < cm.revisionNumber
    · exact hstale
    · exfalso
      simp only [pruneContract, hrev, if_neg hstale] at h
      cases hset : env.settings with
      | error e => rw [hset] at h; simp at h
      | ok st =>
        rw [hset] at h
        simp only at h
        by_cases hgc : gc st = true
        · rw [hgc] at h
          simp at h
        · simp only [Bool.not_eq_true] at hgc
          rw [hgc] at h
          simp only [Bool.false_eq_true, if_false] at h
          cases hloop : fetchRootsLoop env (rev.filesize / SectorSize) fuel 0 0 rev
              [] Usage.zero with
          | outOfFuel tr1 => rw [hloop] at h; simp at h
          | failed e tr1 => rw [hloop] at h; simp at h
          | done roots rev1 usage1 k tr1 =>
            rw [hloop] at h
            simp only at h
            exact prunePhase2_no_stale env cm pend roots rev1 usage1 _ a b tr h

/-- C2 witness: on a host reporting revision 3 for a contract known at
revision 4, pruneContract returns the stale-revision error after only
the revision fetch. -/
theorem claim_C2_witness :
    pruneContract staleEnv gcNever cmEx [] 2
      = PruneOutcome.err (PruneErr.staleRevision 3 4) [CallEvent.latestRevisionCall] :=
  (claim_C2 staleEnv gcNever cmEx [] 2
    { revisionNumber := 3, filesize := 2 * SectorSize
      missedHostValue := 11, validRenterValue := 13 } rfl).1 (by decide)

/-- C3: when the gouging checker flags the fetched settings,
pruneContract fails with the gouging error having issued only the
revision fetch and the settings fetch: zero paid RPCs and zero spending
records. -/
theorem claim_C3 (env : HostEnv) (gc : Settings → Bool) (cm : ContractMetadata)
    (pend : List Nat) (fuel : Nat) (rev : Revision) (st : Settings)
    (hrev : env.latestRevision = Except.ok rev)
    (hfresh : ¬ rev.revisionNumber < cm.revisionNumber)
    (hset : env.settings = Except.ok st)
    (hgc : gc st = true) :
    pruneContract env gc cm pend fuel
      = PruneOutcome.err PruneErr.hostGouging
          [CallEvent.latestRevisionCall, CallEvent.settingsCall]
    ∧ countPaidCalls (pruneContract env gc cm pend fuel).trace = 0
    ∧ recordedSpendings (pruneContract env gc cm pend fuel).trace = [] := by
  have h : pruneContract env gc cm pend fuel
      = PruneOutcome.err PruneErr.hostGouging
          [CallEvent.latestRevisionCall, CallEvent.settingsCall] := by
    simp only [pruneContract, hrev, if_neg hfresh, hset, hgc, if_pos]
  refine ⟨h, ?_, ?_⟩
  · rw [h]
    simp [PruneOutcome.trace, countPaidCalls]
  · rw [h]
    simp [PruneOutcome.trace, recordedSpendings]

/-- C3 witness: a checker that always flags aborts the pass on the
well-behaved host with the gouging error and an RPC-free trace. -/
theorem claim_C3_witness :
    pruneContract goodEnv gcAlways cmEx [] 2
      = PruneOutcome.err PruneErr.hostGouging
          [CallEvent.latestRevisionCall, CallEvent.settingsCall]
    ∧ countPaidCalls (pruneContract goodEnv gcAlways cmEx [] 2).trace = 0
    ∧ recordedSpendings (pruneContract goodEnv gcAlways cmEx [] 2).trace = [] :=
  claim_C3 goodEnv gcAlways cmEx [] 2 revTwoSectors { prices := 3 }
    rfl (by decide) rfl rfl

/-- C4: during sector enumeration against a host that returns exactly
the requested roots per page, once the loop completes pruneContract
continues on its results; the sector count is the filesize divided by
the sector size and all of them are collected; every page request asks
for the minimum of the protocol batch maximum and the sectors still
remaining, passes the revision returned by the immediately preceding
call, and its usage cost is accumulated into the running total. -/
theorem claim_C4 (env : HostEnv) (gc : Settings → Bool) (cm : ContractMetadata)
    (pend : List Nat) (fuel : Nat) (rev : Revision) (st : Settings)
    (roots : List Nat) (rev1 : Revision) (usage1 : Usage) (k : Nat)
    (trL : List CallEvent)
    (hrev : env.latestRevision = Except.ok rev)
    (hfresh : ¬ rev.revisionNumber < cm.revisionNumber)
    (hset : env.settings = Except.ok st)
    (hgc : gc st = false)
    (hexact : ∀ i off len, 0 < len →
      ∃ res, env.sectorRoots i off len = Except.ok res ∧ res.roots.length = len)
    (hfuel : rev.filesize / SectorSize ≤ fuel)
    (hloop : fetchRootsLoop env (rev.filesize / SectorSize) fuel 0 0 rev [] Usage.zero
      = FetchOutcome.done roots rev1 usage1 k trL) :
    pruneContract env gc cm pend fuel
      = prunePhase2 env cm pend roots rev1 usage1
          ([CallEvent.latestRevisionCall, CallEvent.settingsCall] ++ trL)
    ∧ roots.length = rev.filesize / SectorSize
    ∧ pagesOk (rev.filesize / SectorSize) rev.revisionNumber 0 trL = true
    ∧ usage1.RenterCost = sumPageUsages trL := by
  obtain ⟨hpages, husage, -⟩ := fetchRootsLoop_done env _ _ _ _ _ _ _ _ _ _ _ _ hloop
  obtain ⟨roots0, rev0, usage0, k0, tr0, heq, hlen⟩ :=
    fetchRootsLoop_exact env (rev.filesize / SectorSize) hexact fuel 0 0 rev []
      Usage.zero (by omega)
  rw [hloop] at heq
  simp only [FetchOutcome.done.injEq] at heq
  obtain ⟨h1, -, -, -, -⟩ := heq
  refine ⟨pruneContract_toPhase2 env gc cm pend fuel rev st roots rev1 usage1 k trL
    hrev hfresh hset hgc hloop, ?_, hpages, ?_⟩
  · rw [← h1] at hlen  -- careful with orientation
    simp at hlen
    omega
  · rw [husage]
    simp [Usage.zero, Usage.RenterCost]

/-- C4 witness: on the well-behaved two-sector host, the enumeration
collects both roots in one page whose trace is a valid page chain. -/
theorem claim_C4_witness :
    ([0, 1] : List Nat).length = revTwoSectors.filesize / SectorSize
    ∧ pagesOk (revTwoSectors.filesize / SectorSize) revTwoSectors.revisionNumber 0
        [CallEvent.sectorRootsCall 5 0 2 (Except.ok
          { roots := [0, 1]
            revision := { revisionNumber := 6, filesize := 2 * SectorSize
                          missedHostValue := 11, validRenterValue := 13 }
            usage := { rpc := 2, storage := 0, egress := 0, ingress := 0
                       accountFunding := 0, riskedCollateral := 0 } })] = true :=
  have h := claim_C4 goodEnv gcNever cmEx [] 2 revTwoSectors { prices := 3 }
    [0, 1]
    { revisionNumber := 6, filesize := 2 * SectorSize
      missedHostValue := 11, validRenterValue := 13 }
    { rpc := 2, storage := 0, egress := 0, ingress := 0
      accountFunding := 0, riskedCollateral := 0 }
    1
    [CallEvent.sectorRootsCall 5 0 2 (Except.ok
      { roots := [0, 1]
        revision := { revisionNumber := 6, filesize := 2 * SectorSize
                      missedHostValue := 11, validRenterValue := 13 }
        usage := { rpc := 2, storage := 0, egress := 0, ingress := 0
                   accountFunding := 0, riskedCollateral := 0 } })]
    rfl (by decide) rfl rfl
    (by
      intro i off len hlen
      refine ⟨_, rfl, ?_⟩
      simp [goodEnv])
    (by decide) (by decide)
  ⟨h.2.1, h.2.2.1⟩

/-- C5: the indices pruneContract hands to the FreeSectors RPC are the
store candidates filtered by the pending-upload exclusion (then capped);
the filtered set is exactly the candidates whose root is not pending,
and no index whose root is pending is ever passed to deletion. -/
theorem claim_C5 (env : HostEnv) (gc : Settings → Bool) (cm : ContractMetadata)
    (pend : List Nat) (fuel : Nat) (rev : Revision) (st : Settings)
    (roots : List Nat) (rev1 : Revision) (usage1 : Usage) (k : Nat)
    (trL : List CallEvent) (indices : List Nat)
    (hrev : env.latestRevision = Except.ok rev)
    (hfresh : ¬ rev.revisionNumber < cm.revisionNumber)
    (hset : env.settings = Except.ok st)
    (hgc : gc st = false)
    (hloop : fetchRootsLoop env (rev.filesize / SectorSize) fuel 0 0 rev [] Usage.zero
      = FetchOutcome.done roots rev1 usage1 k trL)
    (hidx : env.prunableContractRoots roots = Except.ok indices) :
    (CallEvent.freeSectorsCall rev1.revisionNumber
        ((excludePending pend roots indices).take
          (pruneBatchSize (excludePending pend roots indices).length))
        (env.freeSectors rev1.revisionNumber
          ((excludePending pend roots indices).take
            (pruneBatchSize (excludePending pend roots indices).length)))
      ∈ (pruneContract env gc cm pend fuel).trace)
    ∧ (∀ i, i ∈ excludePending pend roots indices
        ↔ (i ∈ indices ∧ ¬ roots.getD i 0 ∈ pend))
    ∧ (∀ i ∈ (excludePending pend roots indices).take
          (pruneBatchSize (excludePending pend roots indices).length),
        ¬ roots.getD i 0 ∈ pend) := by
  have hred := pruneContract_toPhase2 env gc cm pend fuel rev st roots rev1 usage1
    k trL hrev hfresh hset hgc hloop
  have hmem : ∀ i, i ∈ excludePending pend roots indices
      ↔ (i ∈ indices ∧ ¬ roots.getD i 0 ∈ pend) := by
    intro i
    simp [excludePending, List.mem_filter]
  refine ⟨?_, hmem, ?_⟩
  · rw [hred]
    simp only [prunePhase2, hidx]
    cases hfree : env.freeSectors rev1.revisionNumber
        ((excludePending pend roots indices).take
          (pruneBatchSize (excludePending pend roots indices).length)) with
    | error e =>
      simp [PruneOutcome.trace]
    | ok fres =>
      simp only []
      split <;> simp [PruneOutcome.trace]
  · intro i hi
    exact ((hmem i).mp (List.take_subset _ _ hi)).2

/-- C5 witness: with root 1 pending, index 1 is excluded and the
FreeSectors call receives exactly index 0. -/
theorem claim_C5_witness :
    CallEvent.freeSectorsCall 6 [0]
        (goodEnv.freeSectors 6 [0])
      ∈ (pruneContract goodEnv gcNever cmEx [1] 2).trace :=
  (claim_C5 goodEnv gcNever cmEx [1] 2 revTwoSectors { prices := 3 }
    [0, 1]
    { revisionNumber := 6, filesize := 2 * SectorSize
      missedHostValue := 11, validRenterValue := 13 }
    { rpc := 2, storage := 0, egress := 0, ingress := 0
      accountFunding := 0, riskedCollateral := 0 }
    1
    [CallEvent.sectorRootsCall 5 0 2 (Except.ok
      { roots := [0, 1]
        revision := { revisionNumber := 6, filesize := 2 * SectorSize
                      missedHostValue := 11, validRenterValue := 13 }
        usage := { rpc := 2, storage := 0, egress := 0, ingress := 0
                   accountFunding := 0, riskedCollateral := 0 } })]
    [0, 1]
    rfl (by decide) rfl rfl (by decide) rfl).1

/-- C6: one pass deletes at most the protocol batch maximum of indices;
the response reports Pruned as the number actually deleted times the
sector size, Remaining as the deferred candidates times the sector
size, and ContractSize as the filesize of the final revision; deferred
candidates are counted, not dropped. -/
theorem claim_C6 (env : HostEnv) (gc : Settings → Bool) (cm : ContractMetadata)
    (pend : List Nat) (fuel : Nat) (rev : Revision) (st : Settings)
    (roots : List Nat) (rev1 : Revision) (usage1 : Usage) (k : Nat)
    (trL : List CallEvent) (indices : List Nat) (fres : FreeSectorsResult)
    (hrev : env.latestRevision = Except.ok rev)
    (hfresh : ¬ rev.revisionNumber < cm.revisionNumber)
    (hset : env.settings = Except.ok st)
    (hgc : gc st = false)
    (hloop : fetchRootsLoop env (rev.filesize / SectorSize) fuel 0 0 rev [] Usage.zero
      = FetchOutcome.done roots rev1 usage1 k trL)
    (hidx : env.prunableContractRoots roots = Except.ok indices)
    (hfree : env.freeSectors rev1.revisionNumber
        ((excludePending pend roots indices).take
          (pruneBatchSize (excludePending pend roots indices).length))
      = Except.ok fres) :
    (pruneContract env gc cm pend fuel).okResp = some
      { contractSize := fres.revision.filesize
        pruned := min MaxSectorBatchSize (excludePending pend roots indices).length
          * SectorSize
        remaining := ((excludePending pend roots indices).length
          - min MaxSectorBatchSize (excludePending pend roots indices).length)
          * SectorSize
        error := "" }
    ∧ ((excludePending pend roots indices).take
        (pruneBatchSize (excludePending pend roots indices).length)).length
      = min MaxSectorBatchSize (excludePending pend roots indices).length
    ∧ min MaxSectorBatchSize (excludePending pend roots indices).length
      ≤ MaxSectorBatchSize
    ∧ min MaxSectorBatchSize (excludePending pend roots indices).length * SectorSize
      + ((excludePending pend roots indices).length
        - min MaxSectorBatchSize (excludePending pend roots indices).length)
        * SectorSize
      = (excludePending pend roots indices).length * SectorSize := by
  have hred := pruneContract_toPhase2 env gc cm pend fuel rev st roots rev1 usage1
    k trL hrev hfresh hset hgc hloop
  have hok := prunePhase2_ok_eq env cm pend roots rev1 usage1
    ([CallEvent.latestRevisionCall, CallEvent.settingsCall] ++ trL) indices fres
    hidx hfree
  have hlen : ((excludePending pend roots indices).take
      (pruneBatchSize (excludePending pend roots indices).length)).length
      = min MaxSectorBatchSize (excludePending pend roots indices).length := by
    rw [List.length_take]
    simp only [pruneBatchSize]
    split <;> omega
  have hminmax : min MaxSectorBatchSize (excludePending pend roots indices).length
      ≤ MaxSectorBatchSize := Nat.min_le_left _ _
  have hminlen : min MaxSectorBatchSize (excludePending pend roots indices).length
      ≤ (excludePending pend roots indices).length := Nat.min_le_right _ _
  refine ⟨?_, hlen, hminmax, ?_⟩
  · rw [hred, hok]
    simp [PruneOutcome.okResp, hlen]
  · simp only [SectorSize]
    omega

/-- C6 witness: on the two-sector host with both sectors prunable and
nothing pending, the pass frees both sectors and reports zero remaining
and a zero final contract size. -/
theorem claim_C6_witness :
    (pruneContract goodEnv gcNever cmEx [] 2).okResp = some
      { contractSize := 0, pruned := 8388608, remaining := 0, error := "" } :=
  (claim_C6 goodEnv gcNever cmEx [] 2 revTwoSectors { prices := 3 }
    [0, 1]
    { revisionNumber := 6, filesize := 2 * SectorSize
      missedHostValue := 11, validRenterValue := 13 }
    { rpc := 2, storage := 0, egress := 0, ingress := 0
      accountFunding := 0, riskedCollateral := 0 }
    1
    [CallEvent.sectorRootsCall 5 0 2 (Except.ok
      { roots := [0, 1]
        revision := { revisionNumber := 6, filesize := 2 * SectorSize
                      missedHostValue := 11, validRenterValue := 13 }
        usage := { rpc := 2, storage := 0, egress := 0, ingress := 0
                   accountFunding := 0, riskedCollateral := 0 } })]
    [0, 1]
    { revision := { revisionNumber := 100, filesize := 0
                    missedHostValue := 17, validRenterValue := 19 }
      usage := { rpc := 5, storage := 0, egress := 0, ingress := 0
                 accountFunding := 0, riskedCollateral := 0 } }
    rfl (by decide) rfl rfl (by decide) rfl (by decide)).1

/-- C7: on a successful pass a spending record is persisted exactly when
the combined renter cost of enumeration and deletion is nonzero; its
Deletions category is the renter cost of the deletion usage, its
SectorRoots category is the renter cost of the accumulated enumeration
usage, which equals the sum over the pages of the trace; and every
persisted record satisfies the conservation law. -/
theorem claim_C7 (env : HostEnv) (gc : Settings → Bool) (cm : ContractMetadata)
    (pend : List Nat) (fuel : Nat) (rev : Revision) (st : Settings)
    (roots : List Nat) (rev1 : Revision) (usage1 : Usage) (k : Nat)
    (trL : List CallEvent) (indices : List Nat) (fres : FreeSectorsResult)
    (hrev : env.latestRevision = Except.ok rev)
    (hfresh : ¬ rev.revisionNumber < cm.revisionNumber)
    (hset : env.settings = Except.ok st)
    (hgc : gc st = false)
    (hloop : fetchRootsLoop env (rev.filesize / SectorSize) fuel 0 0 rev [] Usage.zero
      = FetchOutcome.done roots rev1 usage1 k trL)
    (hidx : env.prunableContractRoots roots = Except.ok indices)
    (hfree : env.freeSectors rev1.revisionNumber
        ((excludePending pend roots indices).take
          (pruneBatchSize (excludePending pend roots indices).length))
      = Except.ok fres) :
    recordedSpendings (pruneContract env gc cm pend fuel).trace
      = (if (usage1.Add fres.usage).RenterCost = 0 then []
         else [{ spending := { deletions := fres.usage.RenterCost, fundAccount := 0
                               sectorRoots := usage1.RenterCost, uploads := 0 }
                 contractID := cm.id
                 revisionNumber := fres.revision.revisionNumber
                 size := fres.revision.filesize
                 missedHostPayout := fres.revision.missedHostValue
                 validRenterPayout := fres.revision.validRenterValue }])
    ∧ usage1.RenterCost = sumPageUsages trL
    ∧ (usage1.Add fres.usage).RenterCost = sumPageUsages trL + fres.usage.RenterCost
    ∧ (∀ r ∈ recordedSpendings (pruneContract env gc cm pend fuel).trace,
        r.spending.deletions + r.spending.sectorRoots
          = sumPageUsages trL + fres.usage.RenterCost) := by
  have hred := pruneContract_toPhase2 env gc cm pend fuel rev st roots rev1 usage1
    k trL hrev hfresh hset hgc hloop
  have hok := prunePhase2_ok_eq env cm pend roots rev1 usage1
    ([CallEvent.latestRevisionCall, CallEvent.settingsCall] ++ trL) indices fres
    hidx hfree
  obtain ⟨-, husage, -⟩ := fetchRootsLoop_done env _ _ _ _ _ _ _ _ _ _ _ _ hloop
  have husage1 : usage1.RenterCost = sumPageUsages trL := by
    rw [husage]
    simp [Usage.zero, Usage.RenterCost]
  have htrL : recordedSpendings trL = [] := by
    have h := fetchRootsLoop_no_records env (rev.filesize / SectorSize) fuel 0 0 rev
      [] Usage.zero
    rw [hloop] at h
    simpa [FetchOutcome.trace] using h
  have hrs : recordedSpendings (pruneContract env gc cm pend fuel).trace
      = (if (usage1.Add fres.usage).RenterCost = 0 then []
         else [{ spending := { deletions := fres.usage.RenterCost, fundAccount := 0
                               sectorRoots := usage1.RenterCost, uploads := 0 }
                 contractID := cm.id
                 revisionNumber := fres.revision.revisionNumber
                 size := fres.revision.filesize
                 missedHostPayout := fres.revision.missedHostValue
                 validRenterPayout := fres.revision.validRenterValue }]) := by
    rw [hred, hok]
    simp only [PruneOutcome.trace]
    rw [recordedSpendings_append]
    rw [recordedSpendings_append, recordedSpendings_append, recordedSpendings_append]
    simp [recordedSpendings, htrL]
    split <;> simp [recordedSpendings]
  have hadd : (usage1.Add fres.usage).RenterCost
      = sumPageUsages trL + fres.usage.RenterCost := by
    rw [Usage.RenterCost_Add, husage1]
  refine ⟨hrs, husage1, hadd, ?_⟩
  intro r hr
  rw [hrs] at hr
  by_cases hz : (usage1.Add fres.usage).RenterCost = 0
  · rw [if_pos hz] at hr
    simp at hr
  · rw [if_neg hz] at hr
    simp at hr
    subst hr
    simp [husage1]
    omega

/-- C7 witness: the successful two-sector pass persists exactly one
record with Deletions 5 (the FreeSectors cost) and SectorRoots 2 (the
enumeration cost). -/
theorem claim_C7_witness :
    recordedSpendings (pruneContract goodEnv gcNever cmEx [] 2).trace
      = [{ spending := { deletions := 5, fundAccount := 0
                         sectorRoots := 2, uploads := 0 }
           contractID := 1, revisionNumber := 100, size := 0
           missedHostPayout := 17, validRenterPayout := 19 }] :=
  (claim_C7 goodEnv gcNever cmEx [] 2 revTwoSectors { prices := 3 }
    [0, 1]
    { revisionNumber := 6, filesize := 2 * SectorSize
      missedHostValue := 11, validRenterValue := 13 }
    { rpc := 2, storage := 0, egress := 0, ingress := 0
      accountFunding := 0, riskedCollateral := 0 }
    1
    [CallEvent.sectorRootsCall 5 0 2 (Except.ok
      { roots := [0, 1]
        revision := { revisionNumber := 6, filesize := 2 * SectorSize
                      missedHostValue := 11, validRenterValue := 13 }
        usage := { rpc := 2, storage := 0, egress := 0, ingress := 0
                   accountFunding := 0, riskedCollateral := 0 } })]
    [0, 1]
    { revision := { revisionNumber := 100, filesize := 0
                    missedHostValue := 17, validRenterValue := 19 }
      usage := { rpc := 5, storage := 0, egress := 0, ingress := 0
                 accountFunding := 0, riskedCollateral := 0 } }
    rfl (by decide) rfl rfl (by decide) rfl (by decide)).1

/-- C8 counterexample: against a host whose first page succeeds with
renter cost 7 and whose second page fails, pruneContract propagates the
page-fetch error without persisting any spending record, although a paid
RPC had already returned. -/
theorem claim_C8_counterexample :
    (pruneContract midFailEnv gcNever cmEx [] 5).errOf
      = some (PruneErr.fetchSectorsFailed "boom")
    ∧ sumPageUsages (pruneContract midFailEnv gcNever cmEx [] 5).trace = 7
    ∧ recordedSpendings (pruneContract midFailEnv gcNever cmEx [] 5).trace = [] := by
  refine ⟨by decide, by decide, by decide⟩

/-- C8 amended: pruneContract attempts no spending accounting on any
failure path; every error return carries a trace with no spending
record, so cost incurred before a mid-pass failure goes unrecorded. -/
theorem claim_C8 (env : HostEnv) (gc : Settings → Bool) (cm : ContractMetadata)
    (pend : List Nat) (fuel : Nat) (e : PruneErr) (tr : List CallEvent)
    (h : pruneContract env gc cm pend fuel = PruneOutcome.err e tr) :
    recordedSpendings tr = [] := by
  simp only [pruneContract] at h
  split at h
  next e0 hrev =>
    simp only [PruneOutcome.err.injEq] at h
    obtain ⟨-, htr⟩ := h
    subst htr
    simp [recordedSpendings]
  next rev hrev =>
    split at h
    · simp only [PruneOutcome.err.injEq] at h
      obtain ⟨-, htr⟩ := h
      subst htr
      simp [recordedSpendings]
    · split at h
      next e0 hset =>
        simp only [PruneOutcome.err.injEq] at h
        obtain ⟨-, htr⟩ := h
        subst htr
        simp [recordedSpendings]
      next st hset =>
        split at h
        · simp only [PruneOutcome.err.injEq] at h
          obtain ⟨-, htr⟩ := h
          subst htr
          simp [recordedSpendings]
        · split at h
          next tr1 heq => simp at h
          next e1 tr1 heq =>
            simp only [PruneOutcome.err.injEq] at h
            obtain ⟨-, htr⟩ := h
            subst htr
            have hnr := fetchRootsLoop_no_records env (rev.filesize / SectorSize)
              fuel 0 0 rev [] Usage.zero
            rw [heq] at hnr
            simp only [FetchOutcome.trace] at hnr
            simp [recordedSpendings_append, recordedSpendings, hnr]
          next roots1 rev1 usage1 k1 tr1 heq =>
            have hrs := prunePhase2_err_records env cm pend roots1 rev1 usage1
              ([CallEvent.latestRevisionCall, CallEvent.settingsCall] ++ tr1)
              e tr h
            have hnr := fetchRootsLoop_no_records env (rev.filesize / SectorSize)
              fuel 0 0 rev [] Usage.zero
            rw [heq] at hnr
            simp only [FetchOutcome.trace] at hnr
            rw [hrs]
            simp [recordedSpendings_append, recordedSpendings, hnr]

/-- C8 witness: the amended statement applied to the mid-pass failure
environment. -/
theorem claim_C8_witness :
    recordedSpendings (pruneContract midFailEnv gcNever cmEx [] 5).trace = [] :=
  claim_C8 midFailEnv gcNever cmEx [] 5 (PruneErr.fetchSectorsFailed "boom")
    (pruneContract midFailEnv gcNever cmEx [] 5).trace (by rfl)

/-- C9 counterexample: when the FreeSectors call fails after its
deletion was (at most) partially applied, pruneContract returns a hard
error and no response at all, instead of a response whose Error field
reports the partial outcome. -/
theorem claim_C9_counterexample :
    (pruneContract freeFailEnv gcNever cmEx [] 5).errOf
      = some (PruneErr.freeSectorsFailed "partial failure")
    ∧ (pruneContract freeFailEnv gcNever cmEx [] 5).okResp = none := by
  refine ⟨by decide, by decide⟩

/-- C9 amended: pruneContract never populates the Error field of a
response (every success carries an empty Error string), and a failure of
the deletion RPC is propagated as a hard error, not reported through the
response. -/
theorem claim_C9 :
    (∀ (env : HostEnv) (gc : Settings → Bool) (cm : ContractMetadata)
        (pend : List Nat) (fuel : Nat) (resp : ContractPruneResponse)
        (tr : List CallEvent),
      pruneContract env gc cm pend fuel = PruneOutcome.ok resp tr →
      resp.error = "")
    ∧ (∀ (env : HostEnv) (gc : Settings → Bool) (cm : ContractMetadata)
        (pend : List Nat) (fuel : Nat) (rev : Revision) (st : Settings)
        (roots : List Nat) (rev1 : Revision) (usage1 : Usage) (k : Nat)
        (trL : List CallEvent) (indices : List Nat) (e : String),
      env.latestRevision = Except.ok rev →
      ¬ rev.revisionNumber < cm.revisionNumber →
      env.settings = Except.ok st →
      gc st = false →
      fetchRootsLoop env (rev.filesize / SectorSize) fuel 0 0 rev [] Usage.zero
        = FetchOutcome.done roots rev1 usage1 k trL →
      env.prunableContractRoots roots = Except.ok indices →
      env.freeSectors rev1.revisionNumber
          ((excludePending pend roots indices).take
            (pruneBatchSize (excludePending pend roots indices).length))
        = Except.error e →
      (pruneContract env gc cm pend fuel).errOf
        = some (PruneErr.freeSectorsFailed e)) := by
  constructor
  · intro env gc cm pend fuel resp tr h
    simp only [pruneContract] at h
    split at h
    next e0 hrev => simp at h
    next rev hrev =>
      split at h
      · simp at h
      · split at h
        next e0 hset => simp at h
        next st hset =>
          split at h
          · simp at h
          · split at h
            next tr1 heq => simp at h
            next e1 tr1 heq => simp at h
            next roots1 rev1 usage1 k1 tr1 heq =>
              exact prunePhase2_ok_error env cm pend roots1 rev1 usage1
                ([CallEvent.latestRevisionCall, CallEvent.settingsCall] ++ tr1)
                resp tr h
  · intro env gc cm pend fuel rev st roots rev1 usage1 k trL indices e
      hrev hfresh hset hgc hloop hidx hfree
    have hred := pruneContract_toPhase2 env gc cm pend fuel rev st roots rev1
      usage1 k trL hrev hfresh hset hgc hloop
    rw [hred]
    simp only [prunePhase2, hidx, hfree]
    simp [PruneOutcome.errOf]

/-- C9 witness: the amended statement evaluated on the environment whose
FreeSectors call fails. -/
theorem claim_C9_witness :
    (pruneContract freeFailEnv gcNever cmEx [] 2).errOf
      = some (PruneErr.freeSectorsFailed "partial failure") :=
  claim_C9.2 freeFailEnv gcNever cmEx [] 2 revTwoSectors { prices := 3 }
    [0, 1]
    { revisionNumber := 6, filesize := 2 * SectorSize
      missedHostValue := 11, validRenterValue := 13 }
    { rpc := 2, storage := 0, egress := 0, ingress := 0
      accountFunding := 0, riskedCollateral := 0 }
    1
    [CallEvent.sectorRootsCall 5 0 2 (Except.ok
      { roots := [0, 1]
        revision := { revisionNumber := 6, filesize := 2 * SectorSize
                      missedHostValue := 11, validRenterValue := 13 }
        usage := { rpc := 2, storage := 0, egress := 0, ingress := 0
                   accountFunding := 0, riskedCollateral := 0 } })]
    [0, 1] "partial failure"
    rfl (by decide) rfl rfl (by decide) rfl (by decide)

/-- C10: the enumeration loop advances by the number of roots returned,
so pruneContract terminates (runs within a fuel budget of one iteration
per sector) whenever every successful page response for a nonzero
request carries at least one root; and against the host that always
returns an empty page it exhausts every fuel budget, the unbounded Go
loop never terminating. -/
theorem claim_C10 :
    (∀ (env : HostEnv) (gc : Settings → Bool) (cm : ContractMetadata)
        (pend : List Nat) (fuel : Nat) (rev : Revision) (st : Settings),
      env.latestRevision = Except.ok rev →
      ¬ rev.revisionNumber < cm.revisionNumber →
      env.settings = Except.ok st →
      gc st = false →
      (∀ i off len res, 0 < len → env.sectorRoots i off len = Except.ok res →
        0 < res.roots.length) →
      rev.filesize / SectorSize ≤ fuel →
      (pruneContract env gc cm pend fuel).isOutOfFuel = false)
    ∧ (∀ fuel : Nat,
      (pruneContract emptyRootsEnv gcNever cmEx [] fuel).isOutOfFuel = true) := by
  constructor
  · intro env gc cm pend fuel rev st hrev hfresh hset hgc hprog hfuel
    cases hloop : fetchRootsLoop env (rev.filesize / SectorSize) fuel 0 0 rev
        [] Usage.zero with
    | outOfFuel tr =>
      have hp := fetchRootsLoop_progress env (rev.filesize / SectorSize) hprog
        fuel 0 0 rev [] Usage.zero (by omega)
      rw [hloop] at hp
      simp [FetchOutcome.isOutOfFuel] at hp
    | failed e tr =>
      simp only [pruneContract, hrev, hset, hgc, if_neg hfresh, hloop]
      simp [PruneOutcome.isOutOfFuel]
    | done roots rev1 usage1 k tr =>
      simp only [pruneContract, hrev, hset, hgc, if_neg hfresh, hloop]
      simpa using prunePhase2_not_outOfFuel env cm pend roots rev1 usage1
        ([CallEvent.latestRevisionCall, CallEvent.settingsCall] ++ tr)
  · intro fuel
    have hrev : emptyRootsEnv.latestRevision = Except.ok revTwoSectors := rfl
    have hset : emptyRootsEnv.settings = Except.ok { prices := 3 } := rfl
    have hfresh : ¬ revTwoSectors.revisionNumber < cmEx.revisionNumber := by decide
    cases hloop : fetchRootsLoop emptyRootsEnv (revTwoSectors.filesize / SectorSize)
        fuel 0 0 revTwoSectors [] Usage.zero with
    | outOfFuel tr =>
      simp only [pruneContract, hrev, hset, if_neg hfresh, hloop, gcNever]
      simp [PruneOutcome.isOutOfFuel]
    | failed e tr =>
      have hemp := fetchRootsLoop_empty (revTwoSectors.filesize / SectorSize)
        fuel 0 0 revTwoSectors [] Usage.zero (by decide)
      rw [hloop] at hemp
      simp [FetchOutcome.isOutOfFuel] at hemp
    | done roots rev1 usage1 k tr =>
      have hemp := fetchRootsLoop_empty (revTwoSectors.filesize / SectorSize)
        fuel 0 0 revTwoSectors [] Usage.zero (by decide)
      rw [hloop] at hemp
      simp [FetchOutcome.isOutOfFuel] at hemp

/-- C10 witness: the terminating half evaluated on the well-behaved
host, and the diverging half on the empty-page host at fuel 5. -/
theorem claim_C10_witness :
    (pruneContract goodEnv gcNever cmEx [] 2).isOutOfFuel = false
    ∧ (pruneContract emptyRootsEnv gcNever cmEx [] 5).isOutOfFuel = true :=
  ⟨claim_C10.1 goodEnv gcNever cmEx [] 2 revTwoSectors { prices := 3 } rfl
      (by decide) rfl rfl
      (by
        intro i off len res hlen hres
        simp only [goodEnv] at hres
        injection hres with h
        subst h
        simpa using hlen)
      (by decide),
    claim_C10.2 5⟩
